import Mathlib

/-!
Verification development for the busy-beaver repository.

The definitions below are a shallow embedding of the Rust sources:
`src/transition.rs` (Direction, State, Action, Transition, PartialTransition),
`src/tape.rs` (Tape), and `src/turing_machine.rs` (TuringMachine,
PartialTuringMachine, generate_busy_beaver).  Machine integers are modelled
as `Nat`/`Int`; the 64-bit tape chunks only ever have bits 0..63 set, so no
wrap-around occurs and `Nat` is exact.  Fallible lookups return `Option`,
and the run of a partially specified machine returns `Except`.  The
process-wide random source is modelled as an explicit stream `Nat → Nat`
consumed one value per draw, and the unbounded `loop` of the generator is
modelled with explicit fuel.
-/

set_option maxRecDepth 4000

namespace BB

/-- Direction in which to move the head (`transition.rs`, enum `Direction`). -/
inductive Direction : Type
  | Left : Direction
  | Right : Direction
deriving DecidableEq, Repr, Inhabited, BEq

/-- The numeric discriminant of a `Direction` (`direction as u8`: Left = 0, Right = 1). -/
def Direction.toNat : Direction → Nat
  | .Left => 0
  | .Right => 1

/-- `impl From<u8> for Direction` (`transition.rs`).  The source matches 0 to
Left and 1 to Right; any other value is an unreachable path (guarded by a
debug assertion), and every call site passes 0 or 1. -/
def Direction.fromNat : Nat → Direction
  | 0 => .Left
  | _ => .Right

/-- State of the Turing machine (`transition.rs`, enum `State`): a halting
state plus seven ordinary states. -/
inductive State : Type
  | Halt : State
  | A : State
  | B : State
  | C : State
  | D : State
  | E : State
  | F : State
  | G : State
deriving DecidableEq, Repr, Inhabited, BEq

/-- The numeric discriminant of a `State` (`state as u8`: Halt = 0, A = 1, ..., G = 7). -/
def State.toNat : State → Nat
  | .Halt => 0
  | .A => 1
  | .B => 2
  | .C => 3
  | .D => 4
  | .E => 5
  | .F => 6
  | .G => 7

/-- `impl From<u8> for State` (`transition.rs`).  Values above 7 are an
unreachable path in the source (guarded by a debug assertion); every call
site passes a value at most 7. -/
def State.fromNat : Nat → State
  | 0 => .Halt
  | 1 => .A
  | 2 => .B
  | 3 => .C
  | 4 => .D
  | 5 => .E
  | 6 => .F
  | 7 => .G
  | _ => .Halt

/-- `State::start` (`transition.rs`): execution always starts in state A. -/
def State.start : State := State.A

/-- `State::is_halting` (`transition.rs`). -/
def State.is_halting (s : State) : Bool := s == State.Halt

/-- Packed action (`transition.rs`, struct `Action`): bit 0 is the symbol to
write, bit 1 the direction, bits 2.. the next-state discriminant. -/
structure Action : Type where
  representation : Nat
deriving DecidableEq, Repr

instance : Inhabited Action := ⟨⟨0⟩⟩

/-- `Action::new` (`transition.rs`).  The source debug-asserts `symbol < 2`. -/
def Action.new (symbol : Nat) (direction : Direction) (next_state : State) : Action :=
  ⟨(next_state.toNat <<< 2) ||| ((direction.toNat <<< 1) ||| symbol)⟩

/-- `Action::get_direction` (`transition.rs`). -/
def Action.get_direction (a : Action) : Direction :=
  Direction.fromNat ((a.representation >>> 1) &&& 1)

/-- `Action::unpack` (`transition.rs`): symbol, direction and next state. -/
def Action.unpack (a : Action) : Nat × Direction × State :=
  (a.representation &&& 1, a.get_direction, State.fromNat (a.representation >>> 2))

/-- `Transition` (`transition.rs`): the two actions of one state, indexed by
the symbol read (field 0 for symbol 0, field 1 for symbol 1). -/
structure Transition : Type where
  action_on_0 : Action
  action_on_1 : Action
deriving DecidableEq, Repr

instance : Inhabited Transition := ⟨⟨⟨0⟩, ⟨0⟩⟩⟩

/-- `Transition::new` (`transition.rs`). -/
def Transition.new (action_on_0 action_on_1 : Action) : Transition :=
  ⟨action_on_0, action_on_1⟩

/-- `Transition::get_action_of` (`transition.rs`): `self.actions[symbol]`.
The symbol is always 0 or 1 at every call site (it comes from `Tape::read`). -/
def Transition.get_action_of (t : Transition) (symbol : Nat) : Nat × Direction × State :=
  (if symbol = 0 then t.action_on_0 else t.action_on_1).unpack

/-- `PartialTransition` (`transition.rs`): two optional actions.  The Rust
`Default` derive gives two `None` slots. -/
structure PartialTransition : Type where
  action_on_0 : Option Action
  action_on_1 : Option Action
deriving DecidableEq, Repr

instance : Inhabited PartialTransition := ⟨⟨none, none⟩⟩

/-- `PartialTransition::set_action_of` (`transition.rs`). -/
def PartialTransition.set_action_of (t : PartialTransition) (symbol : Nat)
    (action : Option Action) : PartialTransition :=
  if symbol = 0 then ⟨action, t.action_on_1⟩ else ⟨t.action_on_0, action⟩

/-- `PartialTransition::get_action_of` (`transition.rs`). -/
def PartialTransition.get_action_of (t : PartialTransition) (symbol : Nat) :
    Option (Nat × Direction × State) :=
  (if symbol = 0 then t.action_on_0 else t.action_on_1).map Action.unpack

/-- `PartialTransition::count_specified_actions` (`transition.rs`). -/
def PartialTransition.count_specified_actions (t : PartialTransition) : Nat :=
  (if t.action_on_0.isSome then 1 else 0) + (if t.action_on_1.isSome then 1 else 0)

/-- `impl From<PartialTransition> for Transition` (`transition.rs`): an unset
symbol-0 slot becomes write 0 / move Right / Halt, an unset symbol-1 slot
becomes write 1 / move Right / Halt. -/
def Transition.fromPartial (t : PartialTransition) : Transition :=
  Transition.new
    (t.action_on_0.getD (Action.new 0 Direction.Right State.Halt))
    (t.action_on_1.getD (Action.new 1 Direction.Right State.Halt))

/-- The tape (`tape.rs`): a deque of 64-bit chunks, a head position, and the
inclusive range of materialized positions.  Chunk values always stay below
2 ^ 64, so plain `Nat` represents `u64` exactly here. -/
structure Tape : Type where
  cells : List Nat
  head : Int
  range : Int × Int
deriving DecidableEq, Repr

/-- `Tape::new` (`tape.rs`): two zero chunks, head at 0, range [-64, 63]. -/
def Tape.new : Tape :=
  ⟨[0, 0], 0, (-64, 63)⟩

/-- `Tape::get_cell_bit_index` (`tape.rs`): bias the position by the lower
bound, then split into chunk index (high bits) and bit offset (low 6 bits).
The source debug-asserts that the position is inside the range, which makes
the `as usize` cast (here `Int.toNat`) exact. -/
def Tape.get_cell_bit_index (t : Tape) (position : Int) : Nat × Nat :=
  ((-t.range.1 + position).toNat >>> 6, (-t.range.1 + position).toNat &&& 63)

/-- `Tape::read` (`tape.rs`). -/
def Tape.read (t : Tape) : Nat :=
  ((t.cells.getD (t.get_cell_bit_index t.head).1 0) >>> (t.get_cell_bit_index t.head).2) &&& 1

/-- `Tape::write` (`tape.rs`).  The source debug-asserts `symbol == 0 || symbol == 1`.
The u64 complement `!(1 << bit)` is `(2 ^ 64 - 1) ^^^ (1 <<< bit)`. -/
def Tape.write (t : Tape) (symbol : Nat) : Tape :=
  if symbol = 1 then
    ⟨t.cells.set (t.get_cell_bit_index t.head).1
        ((t.cells.getD (t.get_cell_bit_index t.head).1 0) ||| (1 <<< (t.get_cell_bit_index t.head).2)),
      t.head, t.range⟩
  else
    ⟨t.cells.set (t.get_cell_bit_index t.head).1
        ((t.cells.getD (t.get_cell_bit_index t.head).1 0) &&& ((2 ^ 64 - 1) ^^^ (1 <<< (t.get_cell_bit_index t.head).2))),
      t.head, t.range⟩

/-- The first conditional of `Tape::move_head` (`tape.rs`, lines 56-59): if
the head sits at the lower bound, prepend a chunk and drop the lower bound
by 64. -/
def Tape.growFront (t : Tape) : Tape :=
  if t.head = t.range.1 then ⟨0 :: t.cells, t.head, (t.range.1 - 64, t.range.2)⟩ else t

/-- The second conditional of `Tape::move_head` (`tape.rs`, lines 61-64): if
the head sits at the upper bound, append a chunk and raise the upper bound
by 64. -/
def Tape.growBack (t : Tape) : Tape :=
  if t.head = t.range.2 then ⟨t.cells ++ [0], t.head, (t.range.1, t.range.2 + 64)⟩ else t

/-- `Tape::move_head` (`tape.rs`): run the two growth conditionals in order,
then move the head by `direction * 2 - 1`. -/
def Tape.move_head (t : Tape) (direction : Direction) : Tape :=
  ⟨t.growFront.growBack.cells,
    t.growFront.growBack.head + ((direction.toNat : Int) * 2 - 1),
    t.growFront.growBack.range⟩

/-- Number of set bits among bits 0..63 of a chunk (`u64::count_ones`). -/
def popCount64 (c : Nat) : Nat :=
  (List.range 64).foldl (fun acc i => acc + c / 2 ^ i % 2) 0

/-- Modelled from the spec: `Tape::count_ones` is called by both executors
(`turing_machine.rs`, lines 44 and 168) but its definition is not among the
provided source files.  The spec describes it as a count of set bits across
the whole materialized tape, reflecting only explicitly written 1s. -/
def Tape.count_ones (t : Tape) : Nat :=
  (t.cells.map popCount64).sum

/-- `TuringMachine<N>` (`turing_machine.rs`): `N` transitions, one per
non-halting state; the constructor asserts `N >= 2`, carried as a hypothesis
where theorems need it. -/
structure TuringMachine : Type where
  transitions : List Transition
deriving DecidableEq, Repr

/-- `PartialTuringMachine<N>` (`turing_machine.rs`). -/
structure PartialTuringMachine : Type where
  transitions : List PartialTransition
deriving DecidableEq, Repr

/-- `PartialTuringMachine::add_transition` (`turing_machine.rs`):
`self.transitions[state - 1].set_action_of(symbol, Some(action))`. -/
def PartialTuringMachine.add_transition (m : PartialTuringMachine) (state : State)
    (symbol : Nat) (action : Action) : PartialTuringMachine :=
  ⟨m.transitions.set (state.toNat - 1)
    ((m.transitions.getD (state.toNat - 1) default).set_action_of symbol (some action))⟩

/-- `impl From<PartialTuringMachine<N>> for TuringMachine<N>`
(`turing_machine.rs`): convert every transition. -/
def TuringMachine.fromPartial (m : PartialTuringMachine) : TuringMachine :=
  ⟨m.transitions.map Transition.fromPartial⟩

/-- The body of one executor step (`turing_machine.rs`, lines 35-36): look up
the action of the current state for the symbol under the head. -/
def stepAction (ts : List Transition) (s : State) (tape : Tape) : Nat × Direction × State :=
  (ts.getD (s.toNat - 1) default).get_action_of tape.read

/-- The tape after one executor step (`turing_machine.rs`, lines 38-39):
write the action symbol, then move the head in the action direction. -/
def stepTape (ts : List Transition) (s : State) (tape : Tape) : Tape :=
  (tape.write (stepAction ts s tape).1).move_head (stepAction ts s tape).2.1

/-- The state after one executor step (`turing_machine.rs`, line 40). -/
def stepState (ts : List Transition) (s : State) (tape : Tape) : State :=
  (stepAction ts s tape).2.2

/-- The while loop of `TuringMachine::run` (`turing_machine.rs`, lines 33-42),
with the remaining step budget as fuel.  Returns the final state, the final
tape, and the number of executed steps (the loop counter `i`). -/
def runLoop (ts : List Transition) : State → Tape → Nat → State × Tape × Nat
  | s, tape, 0 => (s, tape, 0)
  | s, tape, fuel + 1 =>
    if s.is_halting then (s, tape, 0)
    else
      ((runLoop ts (stepState ts s tape) (stepTape ts s tape) fuel).1,
        (runLoop ts (stepState ts s tape) (stepTape ts s tape) fuel).2.1,
        (runLoop ts (stepState ts s tape) (stepTape ts s tape) fuel).2.2 + 1)

/-- `TuringMachine::run` (`turing_machine.rs`): `Some(count_ones)` if the
machine halted within the budget, `None` otherwise. -/
def TuringMachine.run (m : TuringMachine) (max_steps : Nat) : Option Nat :=
  if (runLoop m.transitions State.start Tape.new max_steps).1.is_halting then
    some (runLoop m.transitions State.start Tape.new max_steps).2.1.count_ones
  else none

/-- The action lookup of the partial executor (`turing_machine.rs`, lines
158-159). -/
def stepActionP (ts : List PartialTransition) (s : State) (tape : Tape) :
    Option (Nat × Direction × State) :=
  (ts.getD (s.toNat - 1) default).get_action_of tape.read

/-- The while loop of `PartialTuringMachine::run` (`turing_machine.rs`,
lines 156-166): identical to `runLoop` except that a missing action stops
the run with the current state and the symbol just read. -/
def runPartialLoop (ts : List PartialTransition) :
    State → Tape → Nat → Except (State × Nat) (State × Tape)
  | s, tape, 0 => .ok (s, tape)
  | s, tape, fuel + 1 =>
    if s.is_halting then .ok (s, tape)
    else
      match stepActionP ts s tape with
      | none => .error (s, tape.read)
      | some act => runPartialLoop ts act.2.2 ((tape.write act.1).move_head act.2.1) fuel

/-- `PartialTuringMachine::run` (`turing_machine.rs`). -/
def PartialTuringMachine.run (m : PartialTuringMachine) (max_steps : Nat) :
    Except (State × Nat) (Option Nat) :=
  (runPartialLoop m.transitions State.start Tape.new max_steps).map
    (fun r => if r.1.is_halting then some r.2.count_ones else none)

/-- `PartialTuringMachine::is_n_state_full` (`turing_machine.rs`, lines
101-109), translated exactly: the source maps each transition to a boolean
and then takes `count()` of the mapped iterator, comparing with `N`. -/
def PartialTuringMachine.is_n_state_full (N : Nat) (m : PartialTuringMachine) : Bool :=
  (m.transitions.map
    (fun t => ((t.get_action_of 0).or (t.get_action_of 1)).isSome)).length == N

/-- `PartialTuringMachine::is_0_dextrous_with` (`turing_machine.rs`, lines
114-128): counts the transitions whose action-on-0 moves Right, with the
candidate action substituted at the given state when the symbol is 0, and
compares the count with `N`. -/
def PartialTuringMachine.is_0_dextrous_with (N : Nat) (m : PartialTuringMachine)
    (state : State) (symbol : Nat) (action : Action) : Bool :=
  (m.transitions.enum.filter
    (fun st =>
      if st.1 + 1 = state.toNat ∧ symbol = 0 then action.get_direction == Direction.Right
      else
        match st.2.get_action_of 0 with
        | some a => a.2.1 == Direction.Right
        | none => false)).length == N

/-- `PartialTuringMachine::count_specified_transitions` (`turing_machine.rs`). -/
def PartialTuringMachine.count_specified_transitions (m : PartialTuringMachine) : Nat :=
  (m.transitions.map PartialTransition.count_specified_actions).sum

/-- The while loop of `PartialTuringMachine::state_choice_limit`
(`turing_machine.rs`, lines 141-149): decrement `s` from `N` while state `s`
has no specified action. -/
def stateChoiceLimitAux (ts : List PartialTransition) : Nat → Nat
  | 0 => 0
  | s + 1 => if (ts.getD s default).count_specified_actions = 0 then stateChoiceLimitAux ts s else s + 1

/-- `PartialTuringMachine::state_choice_limit` (`turing_machine.rs`). -/
def PartialTuringMachine.state_choice_limit (N : Nat) (m : PartialTuringMachine) : State :=
  State.fromNat (stateChoiceLimitAux m.transitions N)

/-- The halting action `Action::new(1, Right, Halt)` bound at the top of
`generate_busy_beaver` (`turing_machine.rs`, line 186). -/
def haltingAction : Action := Action.new 1 Direction.Right State.Halt

/-- The `count_specified_transitions == 2 * N - 1` clean-up of
`generate_busy_beaver` (`turing_machine.rs`, lines 235-246): every state with
exactly one specified action gets the halting action on its missing symbol. -/
def fillSingles (N : Nat) (m : PartialTuringMachine) : PartialTuringMachine :=
  (List.range N).foldl
    (fun m s =>
      if (m.transitions.getD s default).count_specified_actions = 1 then
        if ((m.transitions.getD s default).get_action_of 0).isNone then
          m.add_transition (State.fromNat (s + 1)) 0 haltingAction
        else
          m.add_transition (State.fromNat (s + 1)) 1 haltingAction
      else m)
    m

/-- The `loop` of `generate_busy_beaver` (`turing_machine.rs`, lines 210-250).
`rng` is the stream of values drawn from the random source (`rng k` is the
value of draw number `k`, already reduced into the requested range by `% 2`
for symbol/direction draws and by the size of the state range for state
draws); `fuel` bounds the number of iterations, `none` meaning the bound was
hit before the loop broke. -/
def genLoop (N max_steps : Nat) (rng : Nat → Nat) :
    PartialTuringMachine → Nat → Nat → Option PartialTuringMachine
  | _, _, 0 => none
  | m, k, fuel + 1 =>
    match m.run max_steps with
    | .ok _ => some m
    | .error (state, symbol) =>
      if m.is_n_state_full N && ! m.is_0_dextrous_with N state symbol haltingAction then
        some (m.add_transition state symbol haltingAction)
      else
        let hi := (m.state_choice_limit N).toNat
        let action := Action.new (rng k % 2) (Direction.fromNat (rng (k + 1) % 2))
          (State.fromNat (1 + rng (k + 2) % (hi - 1 + 1)))
        let m1 := if ! m.is_0_dextrous_with N state symbol action then
            m.add_transition state symbol action
          else m
        if m1.count_specified_transitions == 2 * N - 1 then some (fillSingles N m1)
        else genLoop N max_steps rng m1 (k + 3) fuel

/-- `generate_busy_beaver::<N>` (`turing_machine.rs`, lines 185-253): seed
A-on-0, seed B-on-0 (randomly, with next state C when `N >= 3`, otherwise a
random state in A..=B), run the extension loop, and convert the resulting
partial machine to a full machine. -/
def generate_busy_beaver (N max_steps : Nat) (rng : Nat → Nat) (fuel : Nat) :
    Option TuringMachine :=
  let m0 : PartialTuringMachine := ⟨List.replicate N default⟩
  let m1 := m0.add_transition State.A 0 (Action.new 1 Direction.Right State.B)
  let seeded :=
    if 3 ≤ N then
      (m1.add_transition State.B 0
        (Action.new (rng 0 % 2) (Direction.fromNat (rng 1 % 2)) State.C), 2)
    else
      (m1.add_transition State.B 0
        (Action.new (rng 0 % 2) (Direction.fromNat (rng 1 % 2))
          (State.fromNat (State.A.toNat + rng 2 % (State.B.toNat - State.A.toNat + 1)))), 3)
  (genLoop N max_steps rng seeded.1 seeded.2 fuel).map TuringMachine.fromPartial

/-! ### Tape invariants and read/write lemmas -/

/-- Structural invariant of every tape produced by the API: the head lies in
the materialized range and the range is exactly the chunks. -/
def Tape.Inv (t : Tape) : Prop :=
  t.range.1 ≤ t.head ∧ t.head ≤ t.range.2 ∧
    t.range.2 + 1 - t.range.1 = 64 * t.cells.length ∧ 2 ≤ t.cells.length

/-- Tape states reachable through the public API from a fresh tape. -/
inductive Tape.Reachable : Tape → Prop
  | new : Tape.Reachable Tape.new
  | move_head (t : Tape) (d : Direction) : Tape.Reachable t → Tape.Reachable (t.move_head d)
  | write (t : Tape) (s : Nat) : Tape.Reachable t → s < 2 → Tape.Reachable (t.write s)

theorem Tape.inv_new : Tape.new.Inv := by
  refine ⟨by norm_num [Tape.new], by norm_num [Tape.new], by norm_num [Tape.new], by norm_num [Tape.new]⟩

theorem Tape.write_cells_length (t : Tape) (s : Nat) :
    (t.write s).cells.length = t.cells.length ∧ (t.write s).range = t.range ∧
      (t.write s).head = t.head := by
  unfold Tape.write
  split <;> simp

theorem Tape.inv_write (t : Tape) (s : Nat) (h : t.Inv) : (t.write s).Inv := by
  obtain ⟨h1, h2, h3⟩ := Tape.write_cells_length t s
  exact ⟨by rw [h3, h2]; exact h.1, by rw [h3, h2]; exact h.2.1,
    by rw [h2, h1]; exact h.2.2.1, by rw [h1]; exact h.2.2.2⟩

theorem Tape.growFront_head (t : Tape) : t.growFront.head = t.head := by
  unfold Tape.growFront; split <;> rfl

theorem Tape.growFront_range2 (t : Tape) : t.growFront.range.2 = t.range.2 := by
  unfold Tape.growFront; split <;> rfl

theorem Tape.growFront_range1 (t : Tape) :
    t.growFront.range.1 = t.range.1 - (if t.head = t.range.1 then 64 else 0) := by
  unfold Tape.growFront; split <;> simp_all

theorem Tape.growFront_length (t : Tape) :
    t.growFront.cells.length = t.cells.length + (if t.head = t.range.1 then 1 else 0) := by
  unfold Tape.growFront; split <;> simp_all

theorem Tape.growBack_head (t : Tape) : t.growBack.head = t.head := by
  unfold Tape.growBack; split <;> rfl

theorem Tape.growBack_range1 (t : Tape) : t.growBack.range.1 = t.range.1 := by
  unfold Tape.growBack; split <;> rfl

theorem Tape.growBack_range2 (t : Tape) :
    t.growBack.range.2 = t.range.2 + (if t.head = t.range.2 then 64 else 0) := by
  unfold Tape.growBack; split <;> simp_all

theorem Tape.growBack_length (t : Tape) :
    t.growBack.cells.length = t.cells.length + (if t.head = t.range.2 then 1 else 0) := by
  unfold Tape.growBack; split <;> simp_all

theorem Tape.move_head_head (t : Tape) (d : Direction) :
    (t.move_head d).head = t.head + ((d.toNat : Int) * 2 - 1) := by
  unfold Tape.move_head
  rw [Tape.growBack_head, Tape.growFront_head]

theorem Tape.move_head_length (t : Tape) (d : Direction) :
    (t.move_head d).cells.length
      = t.cells.length + ((if t.head = t.range.1 then 1 else 0)
          + (if t.head = t.range.2 then 1 else 0)) := by
  unfold Tape.move_head
  show t.growFront.growBack.cells.length = _
  rw [Tape.growBack_length, Tape.growFront_length, Tape.growFront_head, Tape.growFront_range2]
  split_ifs <;> omega

theorem Tape.move_head_range1 (t : Tape) (d : Direction) :
    (t.move_head d).range.1 = t.range.1 - (if t.head = t.range.1 then 64 else 0) := by
  unfold Tape.move_head
  show t.growFront.growBack.range.1 = _
  rw [Tape.growBack_range1, Tape.growFront_range1]

theorem Tape.move_head_range2 (t : Tape) (d : Direction) :
    (t.move_head d).range.2 = t.range.2 + (if t.head = t.range.2 then 64 else 0) := by
  unfold Tape.move_head
  show t.growFront.growBack.range.2 = _
  rw [Tape.growBack_range2, Tape.growFront_head, Tape.growFront_range2]

theorem Tape.inv_move_head (t : Tape) (d : Direction) (h : t.Inv) : (t.move_head d).Inv := by
  obtain ⟨i1, i2, i3, i4⟩ := h
  have hd : (d.toNat : Int) = 0 ∨ (d.toNat : Int) = 1 := by
    cases d <;> simp [Direction.toNat]
  unfold Tape.Inv
  rw [Tape.move_head_head, Tape.move_head_length, Tape.move_head_range1, Tape.move_head_range2]
  rcases hd with hd | hd <;> rw [hd] <;> split_ifs <;> push_cast <;> omega

/-- Reading the tape at an arbitrary position, with the same index formula as
`Tape::read` uses at the head position. -/
def Tape.read_at (t : Tape) (p : Int) : Nat :=
  ((t.cells.getD (t.get_cell_bit_index p).1 0) >>> (t.get_cell_bit_index p).2) &&& 1

theorem Tape.read_eq_read_at (t : Tape) : t.read = t.read_at t.head := rfl

theorem Nat.shiftRight_six (pp : Nat) : pp >>> 6 = pp / 64 := by
  rw [Nat.shiftRight_eq_div_pow]

theorem Nat.and_63 (pp : Nat) : pp &&& 63 = pp % 64 := by
  have h : (63 : Nat) = 2 ^ 6 - 1 := by norm_num
  rw [h, Nat.and_pow_two_sub_one_eq_mod]

theorem Tape.read_at_div_mod (t : Tape) (p : Int) :
    t.read_at p = (t.cells.getD ((-t.range.1 + p).toNat / 64) 0)
        / 2 ^ ((-t.range.1 + p).toNat % 64) % 2 := by
  unfold Tape.read_at Tape.get_cell_bit_index
  rw [Nat.and_one_is_mod, Nat.shiftRight_eq_div_pow, Nat.shiftRight_six, Nat.and_63]

theorem Nat.div_pow_mod_two_eq (x b : Nat) :
    x / 2 ^ b % 2 = if x.testBit b then 1 else 0 := by
  rw [Nat.testBit_to_div_mod]
  rcases Nat.mod_two_eq_zero_or_one (x / 2 ^ b) with h | h <;> simp [h]

theorem Nat.or_pow_bit_self (c b : Nat) : (c ||| 2 ^ b) / 2 ^ b % 2 = 1 := by
  rw [Nat.div_pow_mod_two_eq]
  simp [Nat.testBit_or, Nat.testBit_two_pow_self]

theorem Nat.and_mask_bit_self (c b : Nat) (hb : b < 64) :
    (c &&& ((2 ^ 64 - 1) ^^^ 2 ^ b)) / 2 ^ b % 2 = 0 := by
  rw [Nat.div_pow_mod_two_eq]
  have hm : Nat.testBit (2 ^ 64 - 1) b = true := by
    rw [Nat.testBit_two_pow_sub_one]
    simpa using hb
  simp only [Nat.testBit_and, Nat.testBit_xor, hm, Nat.testBit_two_pow_self]
  simp

theorem Nat.or_pow_bit_ne (c b b' : Nat) (h : b ≠ b') :
    (c ||| 2 ^ b) / 2 ^ b' % 2 = c / 2 ^ b' % 2 := by
  rw [Nat.div_pow_mod_two_eq, Nat.div_pow_mod_two_eq]
  simp [Nat.testBit_or, Nat.testBit_two_pow_of_ne h]

theorem Nat.and_mask_bit_ne (c b b' : Nat) (h : b ≠ b') (hb' : b' < 64) :
    (c &&& ((2 ^ 64 - 1) ^^^ 2 ^ b)) / 2 ^ b' % 2 = c / 2 ^ b' % 2 := by
  rw [Nat.div_pow_mod_two_eq, Nat.div_pow_mod_two_eq]
  have hm : Nat.testBit (2 ^ 64 - 1) b' = true := by
    rw [Nat.testBit_two_pow_sub_one]
    simpa using hb'
  simp only [Nat.testBit_and, Nat.testBit_xor, hm, Nat.testBit_two_pow_of_ne h]
  simp

theorem List.getD_append_zero (l : List Nat) (i : Nat) :
    (l ++ [0]).getD i 0 = l.getD i 0 := by
  induction l generalizing i with
  | nil => rcases i with _ | i <;> simp
  | cons a l ih =>
    rcases i with _ | i
    · rfl
    · simpa using ih i

theorem List.getD_zeros (i : Nat) : List.getD [0, 0] i 0 = 0 := by
  rcases i with _ | _ | i <;> rfl

theorem Tape.read_at_new (p : Int) : Tape.new.read_at p = 0 := by
  rw [Tape.read_at_div_mod]
  simp only [Tape.new]
  rw [List.getD_zeros]
  simp

theorem Tape.read_at_mk (cells : List Nat) (head : Int) (r : Int × Int) (p : Int) :
    (Tape.mk cells head r).read_at p
      = (cells.getD ((-r.1 + p).toNat / 64) 0) / 2 ^ ((-r.1 + p).toNat % 64) % 2 :=
  Tape.read_at_div_mod _ p

theorem Tape.reachable_inv (t : Tape) (h : t.Reachable) : t.Inv := by
  induction h with
  | new => exact Tape.inv_new
  | move_head t d _ ih => exact Tape.inv_move_head t d ih
  | write t s _ _ ih => exact Tape.inv_write t s ih

theorem Tape.head_index_lt (t : Tape) (h : t.Inv) :
    (-t.range.1 + t.head).toNat / 64 < t.cells.length := by
  obtain ⟨i1, i2, i3, i4⟩ := h
  omega

/-- The cell update performed by `Tape::write`, in divide/modulo form. -/
theorem Tape.write_cells (t : Tape) (s : Nat) :
    (t.write s).cells = t.cells.set ((-t.range.1 + t.head).toNat / 64)
      (if s = 1 then
        (t.cells.getD ((-t.range.1 + t.head).toNat / 64) 0)
          ||| 2 ^ ((-t.range.1 + t.head).toNat % 64)
      else
        (t.cells.getD ((-t.range.1 + t.head).toNat / 64) 0)
          &&& ((2 ^ 64 - 1) ^^^ 2 ^ ((-t.range.1 + t.head).toNat % 64))) := by
  unfold Tape.write Tape.get_cell_bit_index
  split <;> simp_all [Nat.shiftRight_six, Nat.and_63, Nat.shiftLeft_eq]

/-- Writing at the head does not change what is read at any other
materialized-or-higher position. -/
theorem Tape.read_at_write_ne (t : Tape) (s : Nat) (p : Int) (h : t.Inv)
    (hp : t.range.1 ≤ p) (hne : p ≠ t.head) :
    (t.write s).read_at p = t.read_at p := by
  have hr : (t.write s).range = t.range := (Tape.write_cells_length t s).2.1
  rw [Tape.read_at_div_mod, Tape.read_at_div_mod, hr, Tape.write_cells]
  have hhd : t.range.1 ≤ t.head := h.1
  have hne2 : (-t.range.1 + p).toNat ≠ (-t.range.1 + t.head).toNat := by omega
  by_cases hidx : (-t.range.1 + p).toNat / 64 = (-t.range.1 + t.head).toNat / 64
  · have hbit : (-t.range.1 + t.head).toNat % 64 ≠ (-t.range.1 + p).toNat % 64 := by omega
    have hb' : (-t.range.1 + p).toNat % 64 < 64 := by omega
    have hlt : (-t.range.1 + t.head).toNat / 64 < t.cells.length := Tape.head_index_lt t h
    rw [hidx, List.getD_eq_getElem?_getD, List.getElem?_set_self hlt, Option.getD_some,
      List.getD_eq_getElem?_getD]
    split
    · exact Nat.or_pow_bit_ne _ _ _ hbit
    · exact Nat.and_mask_bit_ne _ _ _ hbit hb'
  · rw [List.getD_eq_getElem?_getD, List.getElem?_set_ne (Ne.symm hidx),
      List.getD_eq_getElem?_getD]

/-- Reading right after writing returns the symbol just written. -/
theorem Tape.write_read (t : Tape) (s : Nat) (h : t.Inv) (hs : s < 2) :
    (t.write s).read = s := by
  obtain ⟨hlen, hr, hh⟩ := Tape.write_cells_length t s
  rw [Tape.read_eq_read_at, hh, Tape.read_at_div_mod, hr, Tape.write_cells]
  have hlt : (-t.range.1 + t.head).toNat / 64 < t.cells.length := Tape.head_index_lt t h
  rw [List.getD_eq_getElem?_getD, List.getElem?_set_self hlt, Option.getD_some]
  have hb : (-t.range.1 + t.head).toNat % 64 < 64 := by omega
  rcases s with _ | _ | s
  · rw [if_neg (by omega)]
    exact Nat.and_mask_bit_self _ _ hb
  · rw [if_pos rfl]
    exact Nat.or_pow_bit_self _ _
  · omega

theorem Tape.read_at_growBack (t : Tape) (p : Int) : t.growBack.read_at p = t.read_at p := by
  unfold Tape.growBack
  split
  · rw [Tape.read_at_mk, Tape.read_at_div_mod, List.getD_append_zero]
  · rfl

theorem Tape.read_at_growFront (t : Tape) (p : Int) (hp : t.range.1 ≤ p) :
    t.growFront.read_at p = t.read_at p := by
  unfold Tape.growFront
  split
  · rw [Tape.read_at_mk, Tape.read_at_div_mod]
    have h1 : (-(t.range.1 - 64) + p).toNat = (-t.range.1 + p).toNat + 64 := by omega
    have h2 : ((-t.range.1 + p).toNat + 64) / 64 = (-t.range.1 + p).toNat / 64 + 1 := by omega
    have h3 : ((-t.range.1 + p).toNat + 64) % 64 = (-t.range.1 + p).toNat % 64 := by omega
    rw [h1, h2, h3, List.getD_cons_succ]
  · rfl

/-- Moving the head does not change what is read at any position at or above
the lower bound (growth only materializes fresh zero chunks). -/
theorem Tape.read_at_move_head (t : Tape) (d : Direction) (p : Int) (hp : t.range.1 ≤ p) :
    (t.move_head d).read_at p = t.read_at p := by
  have h1 : (t.move_head d).read_at p = t.growFront.growBack.read_at p := rfl
  rw [h1, Tape.read_at_growBack, Tape.read_at_growFront t p hp]

/-! ### Action packing and executor lemmas -/

theorem Action.unpack_new (s : Nat) (hs : s < 2) (d : Direction) (st : State) :
    (Action.new s d st).unpack = (s, d, st) := by
  rcases s with _ | _ | s
  · cases d <;> cases st <;> decide
  · cases d <;> cases st <;> decide
  · omega

theorem Action.get_direction_new (s : Nat) (hs : s < 2) (d : Direction) (st : State) :
    (Action.new s d st).get_direction = d := by
  have h := Action.unpack_new s hs d st
  have h2 := congrArg (fun x => x.2.1) h
  simpa [Action.unpack] using h2

theorem List.getD_replicate_self (N i : Nat) {α : Type} (d : α) :
    (List.replicate N d).getD i d = d := by
  induction N generalizing i with
  | zero => simp
  | succ N ih =>
    rcases i with _ | i
    · rfl
    · simp only [List.replicate_succ, List.getD_cons_succ]
      exact ih i

theorem runLoop_halting (ts : List Transition) (s : State) (t : Tape)
    (hs : s.is_halting = true) (n : Nat) : runLoop ts s t n = (s, t, 0) := by
  cases n with
  | zero => rfl
  | succ n => simp [runLoop, hs]

theorem runLoop_succ_nonhalt (ts : List Transition) (s : State) (t : Tape) (n : Nat)
    (hs : s.is_halting = false) :
    runLoop ts s t (n + 1)
      = ((runLoop ts (stepState ts s t) (stepTape ts s t) n).1,
          (runLoop ts (stepState ts s t) (stepTape ts s t) n).2.1,
          (runLoop ts (stepState ts s t) (stepTape ts s t) n).2.2 + 1) := by
  simp [runLoop, hs]

/-- Extra fuel beyond a halting point does not change the loop result. -/
theorem runLoop_halt_add (ts : List Transition) :
    ∀ (n k : Nat) (s : State) (t : Tape), (runLoop ts s t n).1.is_halting = true →
      runLoop ts s t (n + k) = runLoop ts s t n := by
  intro n
  induction n with
  | zero =>
    intro k s t h
    have hs : s.is_halting = true := h
    rw [Nat.zero_add, runLoop_halting ts s t hs k]
    rfl
  | succ n ih =>
    intro k s t h
    by_cases hs : s.is_halting = true
    · rw [runLoop_halting ts s t hs, runLoop_halting ts s t hs]
    · have hs' : s.is_halting = false := by
        revert hs
        cases s.is_halting <;> simp
      have heq : n + 1 + k = (n + k) + 1 := by omega
      rw [runLoop_succ_nonhalt ts s t n hs'] at h
      rw [heq, runLoop_succ_nonhalt ts s t (n + k) hs', runLoop_succ_nonhalt ts s t n hs',
        ih k (stepState ts s t) (stepTape ts s t) h]

theorem runPartialLoop_succ_halt (ts : List PartialTransition) (s : State) (t : Tape)
    (n : Nat) (hs : s.is_halting = true) :
    runPartialLoop ts s t (n + 1) = .ok (s, t) := by
  simp [runPartialLoop, hs]

theorem runPartialLoop_succ_none (ts : List PartialTransition) (s : State) (t : Tape)
    (n : Nat) (hs : s.is_halting = false) (ha : stepActionP ts s t = none) :
    runPartialLoop ts s t (n + 1) = .error (s, t.read) := by
  simp [runPartialLoop, hs, ha]

theorem runPartialLoop_succ_some (ts : List PartialTransition) (s : State) (t : Tape)
    (n : Nat) (sym : Nat) (dir : Direction) (ns : State)
    (hs : s.is_halting = false) (ha : stepActionP ts s t = some (sym, dir, ns)) :
    runPartialLoop ts s t (n + 1)
      = runPartialLoop ts ns ((t.write sym).move_head dir) n := by
  simp [runPartialLoop, hs, ha]

/-- Extra fuel beyond an undefined-transition stop does not change the result. -/
theorem runPartialLoop_error_add (ts : List PartialTransition) :
    ∀ (n k : Nat) (s : State) (t : Tape) (e : State × Nat),
      runPartialLoop ts s t n = .error e → runPartialLoop ts s t (n + k) = .error e := by
  intro n
  induction n with
  | zero =>
    intro k s t e h
    exact absurd h (by simp [runPartialLoop])
  | succ n ih =>
    intro k s t e h
    by_cases hs : s.is_halting = true
    · rw [runPartialLoop_succ_halt ts s t n hs] at h
      exact absurd h (by simp)
    · have hs' : s.is_halting = false := by
        revert hs
        cases s.is_halting <;> simp
      have heq : n + 1 + k = (n + k) + 1 := by omega
      cases ha : stepActionP ts s t with
      | none =>
        rw [runPartialLoop_succ_none ts s t n hs' ha] at h
        rw [heq, runPartialLoop_succ_none ts s t (n + k) hs' ha]
        exact h
      | some act =>
        obtain ⟨sym, dir, ns⟩ := act
        rw [runPartialLoop_succ_some ts s t n sym dir ns hs' ha] at h
        rw [heq, runPartialLoop_succ_some ts s t (n + k) sym dir ns hs' ha]
        exact ih k _ _ e h

/-! ### The claims -/

deriving instance DecidableEq for Except

/-- The size-2 machine of the spec scenario: A-on-0 = 1RB, A-on-1 = 1LB,
B-on-0 = 1LA, B-on-1 = 1RHalt. -/
def bb2 : TuringMachine :=
  ⟨[Transition.new (Action.new 1 Direction.Right State.B) (Action.new 1 Direction.Left State.B),
    Transition.new (Action.new 1 Direction.Left State.A) (Action.new 1 Direction.Right State.Halt)]⟩

/-- C1: for the size-2 machine with transitions A-on-0 = (1, Right, B),
A-on-1 = (1, Left, B), B-on-0 = (1, Left, A), B-on-1 = (1, Right, Halt),
`run(max_steps)` with any `max_steps >= 6` halts after exactly 6 executed
steps and returns `Some(4)`. -/
theorem TuringMachine.bb2_halts_after_six (max_steps : Nat) (h : 6 ≤ max_steps) :
    bb2.run max_steps = some 4 ∧
      (runLoop bb2.transitions State.start Tape.new max_steps).2.2 = 6 := by
  obtain ⟨k, rfl⟩ := Nat.exists_eq_add_of_le h
  have h6 : (runLoop bb2.transitions State.start Tape.new 6).1.is_halting = true
      ∧ (runLoop bb2.transitions State.start Tape.new 6).2.2 = 6
      ∧ (runLoop bb2.transitions State.start Tape.new 6).2.1.count_ones = 4 := by decide
  have hst := runLoop_halt_add bb2.transitions 6 k State.start Tape.new h6.1
  refine ⟨?_, by rw [hst]; exact h6.2.1⟩
  unfold TuringMachine.run
  rw [hst, if_pos h6.1, h6.2.2]

/-- Witness for C1 at `max_steps = 6`. -/
theorem TuringMachine.bb2_halts_after_six_witness :
    bb2.run 6 = some 4 ∧ (runLoop bb2.transitions State.start Tape.new 6).2.2 = 6 :=
  TuringMachine.bb2_halts_after_six 6 (Nat.le_refl 6)

/-- C2 (against the code as written): `is_n_state_full` maps each transition
to a boolean and then counts the mapped iterator, so the count is always the
number of transitions and the function returns `true` for every machine of
matching size — in particular for the empty machine, every state of which
has zero specified actions.  The spec claims it returns `false` there. -/
theorem PartialTuringMachine.is_n_state_full_ignores_gaps :
    (∀ (m : PartialTuringMachine) (N : Nat), m.transitions.length = N →
        m.is_n_state_full N = true) ∧
      PartialTuringMachine.is_n_state_full 2 ⟨List.replicate 2 default⟩ = true ∧
      ∀ t ∈ (PartialTuringMachine.mk (List.replicate 2 default)).transitions,
        t.count_specified_actions = 0 := by
  refine ⟨?_, by decide, by decide⟩
  intro m N h
  simp [PartialTuringMachine.is_n_state_full, h]

/-- C3 counterexample: after 64 left moves from a fresh tape the head sits at
the left boundary -64; one further move to the RIGHT — away from that
boundary, stepping to -63 and past no boundary — still allocates a chunk on
the left side and widens the left bound by 64. -/
theorem Tape.move_away_from_boundary_allocates :
    ((fun t : Tape => t.move_head Direction.Left)^[64] Tape.new).head = -64 ∧
      ((fun t : Tape => t.move_head Direction.Left)^[64] Tape.new).range = (-64, 63) ∧
      ((fun t : Tape => t.move_head Direction.Left)^[64] Tape.new).cells.length = 2 ∧
      (((fun t : Tape => t.move_head Direction.Left)^[64] Tape.new).move_head
          Direction.Right).head = -63 ∧
      (((fun t : Tape => t.move_head Direction.Left)^[64] Tape.new).move_head
          Direction.Right).cells.length = 3 ∧
      (((fun t : Tape => t.move_head Direction.Left)^[64] Tape.new).move_head
          Direction.Right).range = (-128, 63) := by
  decide

/-- C3 amended: a `move_head` call allocates exactly one chunk on a side
exactly when the head starts the call sitting at that side of the boundary,
regardless of the direction moved, widening that side by 64; `write` never
changes the chunk count or the range. -/
theorem Tape.growth_characterization (t : Tape) (d : Direction) (s : Nat) :
    (t.move_head d).cells.length
        = t.cells.length + ((if t.head = t.range.1 then 1 else 0)
            + (if t.head = t.range.2 then 1 else 0)) ∧
      (t.move_head d).range.1 = t.range.1 - (if t.head = t.range.1 then 64 else 0) ∧
      (t.move_head d).range.2 = t.range.2 + (if t.head = t.range.2 then 64 else 0) ∧
      (t.write s).cells.length = t.cells.length ∧ (t.write s).range = t.range :=
  ⟨Tape.move_head_length t d, Tape.move_head_range1 t d, Tape.move_head_range2 t d,
    (Tape.write_cells_length t s).1, (Tape.write_cells_length t s).2.1⟩

/-- C5: an empty partial machine of any size run with any positive budget
stops immediately with the undefined-transition outcome for (A, 0), which is
distinct from every `Ok` outcome. -/
theorem PartialTuringMachine.empty_run_undefined (N max_steps : Nat) (_hN : 2 ≤ N)
    (hm : 1 ≤ max_steps) :
    (PartialTuringMachine.mk (List.replicate N default)).run max_steps
        = Except.error (State.A, 0) ∧
      ∀ o : Option Nat,
        (Except.error (State.A, 0) : Except (State × Nat) (Option Nat)) ≠ Except.ok o := by
  obtain ⟨k, rfl⟩ := Nat.exists_eq_add_of_le hm
  constructor
  · have ha : stepActionP (List.replicate N default) State.start Tape.new = none := by
      unfold stepActionP
      rw [List.getD_replicate_self]
      rfl
    have h1 : runPartialLoop (List.replicate N default) State.start Tape.new (k + 1)
        = .error (State.start, Tape.new.read) :=
      runPartialLoop_succ_none _ _ _ k rfl ha
    unfold PartialTuringMachine.run
    rw [show 1 + k = k + 1 from by omega, h1]
    rfl
  · intro o h
    exact Except.noConfusion h

/-- Witness for C5 at N = 2, max_steps = 1. -/
theorem PartialTuringMachine.empty_run_undefined_witness :
    (PartialTuringMachine.mk (List.replicate 2 default)).run 1
        = Except.error (State.A, 0) ∧
      ∀ o : Option Nat,
        (Except.error (State.A, 0) : Except (State × Nat) (Option Nat)) ≠ Except.ok o :=
  PartialTuringMachine.empty_run_undefined 2 1 (Nat.le_refl 2) (Nat.le_refl 1)

/-- C6: converting a partial transition keeps every specified action
unchanged, replaces an unset symbol-0 slot with (write 0, Right, Halt) and an
unset symbol-1 slot with (write 1, Right, Halt) — two distinct defaults — and
the machine-level conversion applies this slot conversion at every index. -/
theorem Transition.fromPartial_spec (p : PartialTransition) (m : PartialTuringMachine)
    (i : Nat) (hi : i < m.transitions.length) :
    (∀ a : Action, p.action_on_0 = some a → (Transition.fromPartial p).action_on_0 = a) ∧
      (p.action_on_0 = none →
        (Transition.fromPartial p).action_on_0 = Action.new 0 Direction.Right State.Halt) ∧
      (∀ a : Action, p.action_on_1 = some a → (Transition.fromPartial p).action_on_1 = a) ∧
      (p.action_on_1 = none →
        (Transition.fromPartial p).action_on_1 = Action.new 1 Direction.Right State.Halt) ∧
      Action.new 0 Direction.Right State.Halt ≠ Action.new 1 Direction.Right State.Halt ∧
      (TuringMachine.fromPartial m).transitions.getD i default
        = Transition.fromPartial (m.transitions.getD i default) := by
  refine ⟨?_, ?_, ?_, ?_, by decide, ?_⟩
  · intro a h
    simp [Transition.fromPartial, Transition.new, h]
  · intro h
    simp [Transition.fromPartial, Transition.new, h]
  · intro a h
    simp [Transition.fromPartial, Transition.new, h]
  · intro h
    simp [Transition.fromPartial, Transition.new, h]
  · have h1 : m.transitions[i]? = some m.transitions[i] := List.getElem?_eq_getElem hi
    simp [TuringMachine.fromPartial, List.getD_eq_getElem?_getD, h1]

/-- Witness for C6 on a transition with slot 0 unset and slot 1 set. -/
theorem Transition.fromPartial_spec_witness :
    (Transition.fromPartial ⟨none, some (Action.new 1 Direction.Left State.B)⟩).action_on_0
        = Action.new 0 Direction.Right State.Halt ∧
      (Transition.fromPartial ⟨none, some (Action.new 1 Direction.Left State.B)⟩).action_on_1
        = Action.new 1 Direction.Left State.B := by
  have h := Transition.fromPartial_spec ⟨none, some (Action.new 1 Direction.Left State.B)⟩
    ⟨[⟨none, none⟩]⟩ 0 (by decide)
  exact ⟨h.2.1 rfl, h.2.2.1 _ rfl⟩

/-- C7: on every reachable tape each `move_head` call changes the head by
exactly +1 (Right) or -1 (Left), and the head afterwards lies inside the
materialized range. -/
theorem Tape.move_head_step_spec (t : Tape) (h : t.Reachable) (d : Direction) :
    (t.move_head d).head = t.head + (if d = Direction.Right then 1 else -1) ∧
      (t.move_head d).range.1 ≤ (t.move_head d).head ∧
      (t.move_head d).head ≤ (t.move_head d).range.2 := by
  have hi' := Tape.inv_move_head t d (Tape.reachable_inv t h)
  refine ⟨?_, hi'.1, hi'.2.1⟩
  rw [Tape.move_head_head]
  cases d <;> simp [Direction.toNat]

/-- Witness for C7 on a fresh tape moved left. -/
theorem Tape.move_head_step_spec_witness :
    (Tape.new.move_head Direction.Left).head
        = Tape.new.head + (if Direction.Left = Direction.Right then 1 else -1) ∧
      (Tape.new.move_head Direction.Left).range.1 ≤ (Tape.new.move_head Direction.Left).head ∧
      (Tape.new.move_head Direction.Left).head ≤ (Tape.new.move_head Direction.Left).range.2 :=
  Tape.move_head_step_spec Tape.new Tape.Reachable.new Direction.Left

/-- C8: on every reachable tape, writing a symbol and reading back without
moving the head returns that symbol, whatever was stored there before. -/
theorem Tape.write_then_read (t : Tape) (h : t.Reachable) (s : Nat) (hs : s < 2) :
    (t.write s).read = s ∧ (t.write s).head = t.head :=
  ⟨Tape.write_read t s (Tape.reachable_inv t h) hs, (Tape.write_cells_length t s).2.2⟩

/-- Witness for C8 writing a 1 on a fresh tape (which stored 0 there). -/
theorem Tape.write_then_read_witness :
    (Tape.new.write 1).read = 1 ∧ (Tape.new.write 1).head = Tape.new.head :=
  Tape.write_then_read Tape.new Tape.Reachable.new 1 (by decide)

/-- One step of the full-table executor as a relation on configurations
(state, tape), mirroring the loop body of `TuringMachine::run`. -/
inductive StepR (ts : List Transition) : State × Tape → State × Tape → Prop where
  | step (s : State) (tape : Tape) (act : Nat × Direction × State)
      (hs : s.is_halting = false) (ha : stepAction ts s tape = act) :
      StepR ts (s, tape) (act.2.2, (tape.write act.1).move_head act.2.1)

/-- C9: the executor is deterministic — for a fixed transition table, two
invocations of `run` with the same budget give the same outcome (the run
consults no random source), and the step relation admits at most one
successor per configuration. -/
theorem TuringMachine.run_deterministic (ts : List Transition) (max_steps : Nat) :
    (∀ o1 o2 : Option Nat,
        o1 = (TuringMachine.mk ts).run max_steps → o2 = (TuringMachine.mk ts).run max_steps →
          o1 = o2) ∧
      ∀ c c1 c2 : State × Tape, StepR ts c c1 → StepR ts c c2 → c1 = c2 := by
  constructor
  · intro o1 o2 h1 h2
    rw [h1, h2]
  · intro c c1 c2 h1 h2
    cases h1 with
    | step s tape act hs ha =>
      cases h2 with
      | step s tape act' hs' ha' =>
        have hacts : act = act' := by rw [← ha, ← ha']
        subst hacts
        rfl

/-- Witness for C9 at the size-2 champion machine and budget 6. -/
theorem TuringMachine.run_deterministic_witness :
    (some 4 : Option Nat) = some 4 ∧
      ((State.B, (Tape.new.write 1).move_head Direction.Right) : State × Tape)
        = (State.B, (Tape.new.write 1).move_head Direction.Right) := by
  refine ⟨(TuringMachine.run_deterministic bb2.transitions 6).1 (some 4) (some 4)
      (by decide) (by decide),
    (TuringMachine.run_deterministic bb2.transitions 6).2 (State.A, Tape.new) _ _
      (StepR.step State.A Tape.new (1, Direction.Right, State.B) rfl (by decide))
      (StepR.step State.A Tape.new (1, Direction.Right, State.B) rfl (by decide))⟩

/-- C10: with a zero step budget the loop body is never entered: every full
machine returns `None` and every partial machine — the empty one included —
returns `Ok(None)`, never the undefined-transition error. -/
theorem run_zero_budget (m : TuringMachine) (pm : PartialTuringMachine) :
    m.run 0 = none ∧ pm.run 0 = Except.ok none :=
  ⟨rfl, rfl⟩

/-! ### C4: behaviour of the generator -/

/-- The partial machine right after the seeding phase of
`generate_busy_beaver::<2>`: A-on-0 is 1RB and B-on-0 is the given action. -/
def twoStateSeed (b0 : Action) : PartialTuringMachine :=
  ⟨[⟨some (Action.new 1 Direction.Right State.B), none⟩, ⟨some b0, none⟩]⟩

theorem PartialTuringMachine.add_length (m : PartialTuringMachine) (st : State)
    (sym : Nat) (a : Action) :
    (m.add_transition st sym a).transitions.length = m.transitions.length := by
  simp [PartialTuringMachine.add_transition]

/-- Writing a symbol and then moving right keeps the tape invariant and keeps
every position at or beyond the new head position blank. -/
theorem stepRightPreserves (t : Tape) (hinv : t.Inv)
    (hz : ∀ p : Int, t.head ≤ p → t.read_at p = 0) (sym : Nat) :
    ((t.write sym).move_head Direction.Right).Inv ∧
      ∀ p : Int, ((t.write sym).move_head Direction.Right).head ≤ p →
        ((t.write sym).move_head Direction.Right).read_at p = 0 := by
  refine ⟨Tape.inv_move_head _ _ (Tape.inv_write _ _ hinv), ?_⟩
  intro p hp
  have hwh : (t.write sym).head = t.head := (Tape.write_cells_length t sym).2.2
  have hwr : (t.write sym).range = t.range := (Tape.write_cells_length t sym).2.1
  have hh : ((t.write sym).move_head Direction.Right).head = t.head + 1 := by
    rw [Tape.move_head_head, hwh]
    simp [Direction.toNat]
  rw [hh] at hp
  have hr1 : (t.write sym).range.1 ≤ p := by
    rw [hwr]
    have := hinv.1
    omega
  have hr1' : t.range.1 ≤ p := by
    rw [hwr] at hr1
    exact hr1
  rw [Tape.read_at_move_head _ _ _ hr1, Tape.read_at_write_ne t sym p hinv hr1' (by omega)]
  exact hz p (by omega)

/-- If B-on-0 also moves right, the partial run of the seeded two-state
machine never reads a 1 and therefore never hits an undefined transition. -/
theorem runPartialLoop_two_right_ok (s0 : Nat) (hs0 : s0 < 2) (st0 : State)
    (hst0 : st0 = State.A ∨ st0 = State.B) :
    ∀ (fuel : Nat) (s : State) (t : Tape), (s = State.A ∨ s = State.B) → t.Inv →
      (∀ p : Int, t.head ≤ p → t.read_at p = 0) →
      ∃ r, runPartialLoop
          (twoStateSeed (Action.new s0 Direction.Right st0)).transitions s t fuel
        = .ok r := by
  intro fuel
  induction fuel with
  | zero => exact fun s t _ _ _ => ⟨(s, t), rfl⟩
  | succ fuel ih =>
    intro s t hst hinv hz
    have hread : t.read = 0 := by
      rw [Tape.read_eq_read_at]
      exact hz t.head (le_refl _)
    rcases hst with rfl | rfl
    · have ha : stepActionP (twoStateSeed (Action.new s0 Direction.Right st0)).transitions
          State.A t = some (1, Direction.Right, State.B) := by
        unfold stepActionP twoStateSeed
        simp [PartialTransition.get_action_of, hread, State.toNat,
          Action.unpack_new 1 (by omega)]
      rw [runPartialLoop_succ_some _ _ _ fuel 1 Direction.Right State.B
        (show State.A.is_halting = false from rfl) ha]
      obtain ⟨hi, hr⟩ := stepRightPreserves t hinv hz 1
      exact ih State.B _ (Or.inr rfl) hi hr
    · have ha : stepActionP (twoStateSeed (Action.new s0 Direction.Right st0)).transitions
          State.B t = some (s0, Direction.Right, st0) := by
        unfold stepActionP twoStateSeed
        simp [PartialTransition.get_action_of, hread, State.toNat, Action.unpack_new s0 hs0]
      rw [runPartialLoop_succ_some _ _ _ fuel s0 Direction.Right st0
        (show State.B.is_halting = false from rfl) ha]
      obtain ⟨hi, hr⟩ := stepRightPreserves t hinv hz s0
      exact ih st0 _ hst0 hi hr

/-- When B-on-0 moves right the generator loop breaks on its first iteration
with the seed machine itself. -/
theorem genLoop_two_right (ms : Nat) (rng : Nat → Nat) (k fuel : Nat) (s0 : Nat)
    (hs0 : s0 < 2) (st0 : State) (hst0 : st0 = State.A ∨ st0 = State.B) :
    ∃ p, genLoop 2 ms rng (twoStateSeed (Action.new s0 Direction.Right st0)) k (fuel + 1)
        = some p ∧ p.transitions.length = 2 := by
  obtain ⟨r, hr⟩ := runPartialLoop_two_right_ok s0 hs0 st0 hst0 ms State.A Tape.new
    (Or.inl rfl) Tape.inv_new (fun p _ => Tape.read_at_new p)
  have hrun : (twoStateSeed (Action.new s0 Direction.Right st0)).run ms
      = .ok (if r.1.is_halting then some r.2.count_ones else none) := by
    unfold PartialTuringMachine.run
    rw [show State.start = State.A from rfl, hr]
    rfl
  refine ⟨twoStateSeed (Action.new s0 Direction.Right st0), ?_, rfl⟩
  simp only [genLoop]
  rw [hrun]

/-- When B-on-0 moves left, the seeded two-state machine either runs out of a
small budget (an `Ok` outcome) or reads a 1 in its third step and stops on
the undefined (B-state, symbol 1) slot. -/
theorem runPartialLoop_two_left (s0 : Nat) (hs0 : s0 < 2) (st0 : State)
    (hst0 : st0 = State.A ∨ st0 = State.B) (ms : Nat) :
    (∃ o, (twoStateSeed (Action.new s0 Direction.Left st0)).run ms = .ok o) ∨
      (twoStateSeed (Action.new s0 Direction.Left st0)).run ms = .error (st0, 1) := by
  have ha1 : stepActionP (twoStateSeed (Action.new s0 Direction.Left st0)).transitions
      State.A Tape.new = some (1, Direction.Right, State.B) := by
    unfold stepActionP twoStateSeed
    simp [PartialTransition.get_action_of, show Tape.new.read = 0 from rfl, State.toNat,
      Action.unpack_new 1 (by omega)]
  have ha2 : stepActionP (twoStateSeed (Action.new s0 Direction.Left st0)).transitions
      State.B ((Tape.new.write 1).move_head Direction.Right)
        = some (s0, Direction.Left, st0) := by
    unfold stepActionP twoStateSeed
    simp [PartialTransition.get_action_of,
      show ((Tape.new.write 1).move_head Direction.Right).read = 0 from rfl, State.toNat,
      Action.unpack_new s0 hs0]
  have hT2read : ((((Tape.new.write 1).move_head Direction.Right).write s0).move_head
      Direction.Left).read = 1 := by
    rcases s0 with _ | _ | s0
    · rfl
    · rfl
    · omega
  have ha3 : stepActionP (twoStateSeed (Action.new s0 Direction.Left st0)).transitions
      st0 ((((Tape.new.write 1).move_head Direction.Right).write s0).move_head
        Direction.Left) = none := by
    rcases hst0 with rfl | rfl <;>
      · unfold stepActionP twoStateSeed
        simp [PartialTransition.get_action_of, hT2read, State.toNat]
  have hs3 : st0.is_halting = false := by
    rcases hst0 with rfl | rfl <;> rfl
  match ms with
  | 0 => exact Or.inl ⟨none, rfl⟩
  | 1 =>
    refine Or.inl ⟨none, ?_⟩
    unfold PartialTuringMachine.run
    rw [show State.start = State.A from rfl,
      runPartialLoop_succ_some _ _ _ 0 1 Direction.Right State.B
        (show State.A.is_halting = false from rfl) ha1]
    rfl
  | 2 =>
    refine Or.inl ⟨none, ?_⟩
    unfold PartialTuringMachine.run
    rw [show State.start = State.A from rfl,
      runPartialLoop_succ_some _ _ _ 1 1 Direction.Right State.B
        (show State.A.is_halting = false from rfl) ha1,
      runPartialLoop_succ_some _ _ _ 0 s0 Direction.Left st0
        (show State.B.is_halting = false from rfl) ha2]
    rcases hst0 with rfl | rfl <;> rfl
  | n + 3 =>
    refine Or.inr ?_
    unfold PartialTuringMachine.run
    rw [show State.start = State.A from rfl, show n + 3 = (n + 2) + 1 from rfl,
      runPartialLoop_succ_some _ _ _ (n + 2) 1 Direction.Right State.B
        (show State.A.is_halting = false from rfl) ha1,
      show n + 2 = (n + 1) + 1 from rfl,
      runPartialLoop_succ_some _ _ _ (n + 1) s0 Direction.Left st0
        (show State.B.is_halting = false from rfl) ha2,
      runPartialLoop_succ_none _ _ _ n hs3 ha3, hT2read]
    rfl

/-- When B-on-0 moves left the generator loop also breaks on its first
iteration: either the run came back `Ok`, or the (state, 1) error slot gets
the halting action because the machine is not 0-dextrous. -/
theorem genLoop_two_left (ms : Nat) (rng : Nat → Nat) (k fuel : Nat) (s0 : Nat)
    (hs0 : s0 < 2) (st0 : State) (hst0 : st0 = State.A ∨ st0 = State.B) :
    ∃ p, genLoop 2 ms rng (twoStateSeed (Action.new s0 Direction.Left st0)) k (fuel + 1)
        = some p ∧ p.transitions.length = 2 := by
  rcases runPartialLoop_two_left s0 hs0 st0 hst0 ms with ⟨o, hok⟩ | herr
  · refine ⟨twoStateSeed (Action.new s0 Direction.Left st0), ?_, rfl⟩
    simp only [genLoop]
    rw [hok]
  · have hfull : (twoStateSeed (Action.new s0 Direction.Left st0)).is_n_state_full 2
        = true := by
      simp [PartialTuringMachine.is_n_state_full, twoStateSeed]
    have hdex : (twoStateSeed (Action.new s0 Direction.Left st0)).is_0_dextrous_with 2
        st0 1 haltingAction = false := by
      rcases hst0 with rfl | rfl <;> rcases s0 with _ | _ | s0 <;> first | decide | omega
    refine ⟨(twoStateSeed (Action.new s0 Direction.Left st0)).add_transition st0 1
      haltingAction, ?_, ?_⟩
    · simp only [genLoop]
      rw [herr]
      simp [hfull, hdex]
    · rw [PartialTuringMachine.add_length]
      rfl

/-- C4 amended, termination half: for N = 2, any budget and any random
stream, the generator loop breaks on its very first iteration, so any
positive fuel returns a machine; that machine has both of its state rows, so
every (state, symbol) pair over the two non-halting states has an action. -/
theorem generate_busy_beaver_two_terminates (max_steps : Nat) (rng : Nat → Nat)
    (fuel : Nat) :
    ∃ tm : TuringMachine, generate_busy_beaver 2 max_steps rng (fuel + 1) = some tm ∧
      tm.transitions.length = 2 ∧ tm.transitions[0]?.isSome = true ∧
      tm.transitions[1]?.isSome = true := by
  have hunf : generate_busy_beaver 2 max_steps rng (fuel + 1)
      = (genLoop 2 max_steps rng
          (twoStateSeed (Action.new (rng 0 % 2) (Direction.fromNat (rng 1 % 2))
            (State.fromNat (1 + rng 2 % 2)))) 3 (fuel + 1)).map
        TuringMachine.fromPartial := rfl
  have hs0 : rng 0 % 2 < 2 := Nat.mod_lt _ (by omega)
  have hst0 : State.fromNat (1 + rng 2 % 2) = State.A
      ∨ State.fromNat (1 + rng 2 % 2) = State.B := by
    rcases Nat.mod_two_eq_zero_or_one (rng 2) with h | h <;> rw [h]
    · exact Or.inl rfl
    · exact Or.inr rfl
  have hmain : ∃ p, genLoop 2 max_steps rng
      (twoStateSeed (Action.new (rng 0 % 2) (Direction.fromNat (rng 1 % 2))
        (State.fromNat (1 + rng 2 % 2)))) 3 (fuel + 1)
        = some p ∧ p.transitions.length = 2 := by
    rcases Nat.mod_two_eq_zero_or_one (rng 1) with h | h <;> rw [h]
    · exact genLoop_two_left max_steps rng 3 fuel (rng 0 % 2) hs0 _ hst0
    · exact genLoop_two_right max_steps rng 3 fuel (rng 0 % 2) hs0 _ hst0
  obtain ⟨p, hp, hlen⟩ := hmain
  have h2 : (TuringMachine.fromPartial p).transitions.length = 2 := by
    simp [TuringMachine.fromPartial, hlen]
  refine ⟨TuringMachine.fromPartial p, ?_, h2, ?_, ?_⟩
  · rw [hunf, hp]
    rfl
  · rw [List.getElem?_eq_getElem (by omega)]
    rfl
  · rw [List.getElem?_eq_getElem (by omega)]
    rfl

/-- The partial machine `generate_busy_beaver::<3>` builds in its seeding
phase when every random draw returns 1: A-on-0 = 1RB and B-on-0 = 1RC. -/
def m3stuck : PartialTuringMachine :=
  ⟨[⟨some (Action.new 1 Direction.Right State.B), none⟩,
    ⟨some (Action.new 1 Direction.Right State.C), none⟩,
    ⟨none, none⟩]⟩

/-- Under the constant-1 random stream the generator loop never changes the
stuck three-state machine: the run errs at (C, 0), the halting break is
blocked because the table is 0-dextrous with the halting action, and every
proposed action is right-moving and hence also rejected. -/
theorem genLoop_m3stuck (fuel : Nat) :
    ∀ k : Nat, genLoop 3 10 (fun _ => 1) m3stuck k fuel = none := by
  induction fuel with
  | zero => intro k; rfl
  | succ fuel ih =>
    intro k
    have hrun : m3stuck.run 10 = .error (State.C, 0) := by decide
    have hcond : (m3stuck.is_n_state_full 3
        && ! m3stuck.is_0_dextrous_with 3 State.C 0 haltingAction) = false := by decide
    simp only [genLoop]
    rw [hrun]
    simp +decide only [hcond]
    exact ih (k + 3)

/-- C4 counterexample: for N = 3, budget 10 and the adversarial random
stream that always returns 1, `generate_busy_beaver` never terminates — no
amount of loop iterations produces a machine, because the loop keeps
re-running the same stuck table without ever extending it. -/
theorem generate_busy_beaver_not_always_terminating :
    (∃ (fuel : Nat) (tm : TuringMachine),
        generate_busy_beaver 3 10 (fun _ => 1) fuel = some tm) = False := by
  apply eq_false
  rintro ⟨fuel, tm, h⟩
  have hunf : generate_busy_beaver 3 10 (fun _ => 1) fuel
      = (genLoop 3 10 (fun _ => 1) m3stuck 2 fuel).map TuringMachine.fromPartial := rfl
  rw [hunf, genLoop_m3stuck fuel 2] at h
  exact Option.noConfusion h


end BB
